import Mathlib

/-!
Verification of the row-scoring and best-match selection core of the
service-fusion address-search actor (`src/main.js`).

The JavaScript core consists of:
* `norm`    : `(s || '').toLowerCase().replace(/\s+/g, ' ').trim()`
* `parseAddress` : leading house number via `/^(\d+)\s+(.*)$/`, plus
  whitespace/lowercase-normalised tokens
* `scoreRow` : six additive signals with a diagnostic breakdown object
* selection : `rowsData.map(scoreRow…).sort((a, b) => b.score - a.score)[0]`
  (JavaScript `Array.prototype.sort` is stable, ECMAScript 2019+)

Strings are modelled as Lean `String` (lists of unicode scalar values);
JavaScript whitespace (`\s`, `String.prototype.trim`) is the set of
code points below; `toLowerCase` is modelled per character by
`Char.toLower`, which agrees with JavaScript on the basic latin range.
-/

/-- The code points matched by JavaScript `\s` (WhiteSpace ∪ LineTerminator),
which is also the set trimmed by `String.prototype.trim`. -/
def jsIsWs (c : Char) : Bool :=
  decide (c.toNat = 9 ∨ c.toNat = 10 ∨ c.toNat = 11 ∨ c.toNat = 12 ∨ c.toNat = 13 ∨
    c.toNat = 32 ∨ c.toNat = 160 ∨ c.toNat = 5760 ∨ (8192 ≤ c.toNat ∧ c.toNat ≤ 8202) ∨
    c.toNat = 8232 ∨ c.toNat = 8233 ∨ c.toNat = 8239 ∨ c.toNat = 8287 ∨
    c.toNat = 12288 ∨ c.toNat = 65279)

/-- JavaScript line terminators, the code points NOT matched by `.` in a regex
without the `s` flag. -/
def isLineTerm (c : Char) : Bool :=
  decide (c.toNat = 10 ∨ c.toNat = 13 ∨ c.toNat = 8232 ∨ c.toNat = 8233)

/-- The code points matched by `\d` in a JavaScript regex: ASCII digits. -/
def jsIsDigit (c : Char) : Bool :=
  decide (48 ≤ c.toNat ∧ c.toNat ≤ 57)

/-- Collapse every run of consecutive space characters to a single space.
Applied after mapping all whitespace to `' '`, this realises
`.replace(/\s+/g, ' ')`. -/
def squeeze : List Char → List Char
  | [] => []
  | [c] => [c]
  | a :: b :: rest =>
      if a = ' ' ∧ b = ' ' then squeeze (b :: rest) else a :: squeeze (b :: rest)

/-- JavaScript `String.prototype.trim` on a list of characters. -/
def jsTrimList (l : List Char) : List Char :=
  ((l.dropWhile jsIsWs).reverse.dropWhile jsIsWs).reverse

/-- JavaScript `String.prototype.trim`. -/
def jsTrim (s : String) : String :=
  (jsTrimList s.data).asString

/-- One character of `toLowerCase().replace(/\s+/g, ' ')`: whitespace becomes a
space (every whitespace run is then collapsed by `squeeze`), anything else is
lowercased.  `toLowerCase` maps no character into or out of the whitespace
class, so lowering before replacing equals this single pass. -/
def lowWs (c : Char) : Char :=
  if jsIsWs c then ' ' else c.toLower

/-- Composition `toLowerCase().replace(/\s+/g, ' ')` on a character list. -/
def lowCollapse (l : List Char) : List Char :=
  squeeze (l.map lowWs)

/-- Source: `const norm = (s) => (s || '').toLowerCase().replace(/\s+/g, ' ').trim()`. -/
def norm (s : String) : String :=
  (jsTrimList (lowCollapse s.data)).asString

/-- Does `hay` start with `needle`? -/
def startsHere : List Char → List Char → Bool
  | [], _ => true
  | _ :: _, [] => false
  | a :: as, b :: bs => a = b && startsHere as bs

/-- Does `needle` occur as a contiguous sublist of `hay`? -/
def subAt (needle : List Char) : List Char → Bool
  | [] => startsHere needle []
  | c :: rest => startsHere needle (c :: rest) || subAt needle rest

/-- JavaScript `hay.includes(needle)`. -/
def strIncludes (hay needle : String) : Bool :=
  subAt needle.data hay.data

/-- Result of `parseAddress` (fields named as in the source object literal). -/
structure ParsedAddress where
  house : String
  street : String
  tokens : List String
  deriving Repr, DecidableEq

/-- JavaScript `.split(' ')` on a character list: fields between single space characters,
empty fields included, `cur` being the reversed accumulator of the current
field. -/
def splitSpAux : List Char → List Char → List String
  | [], cur => [cur.reverse.asString]
  | c :: rest, cur =>
      if c = ' ' then cur.reverse.asString :: splitSpAux rest []
      else splitSpAux rest (c :: cur)

/-- Source: `norm(a).split(' ').filter(Boolean)`. -/
def splitTokens (s : String) : List String :=
  (splitSpAux s.data []).filter (fun t => t != "")

/-- Source:
```
function parseAddress(address) {
  const a = (address || '').trim();
  const m = a.match(/^(\d+)\s+(.*)$/); // house number + rest
  return { house: m ? m[1] : '', street: m ? m[2] : a,
           tokens: norm(a).split(' ').filter(Boolean) };
}
```
The regex matches iff the trimmed string starts with a (maximal) digit run,
followed by at least one whitespace character, and the text after the maximal
whitespace run contains no line terminator (`.` cannot match one, and
backtracking `\s+` only grows the tail, so such inputs fail to match at all).
On success group 1 is the digit run and group 2 the text after the maximal
whitespace run.
-/
def parseAddress (address : String) : ParsedAddress :=
  let a := jsTrimList address.data
  let ds := a.takeWhile jsIsDigit
  let afterDigits := a.dropWhile jsIsDigit
  let rem := afterDigits.dropWhile jsIsWs
  let matched :=
    ds ≠ [] ∧ afterDigits.takeWhile jsIsWs ≠ [] ∧ rem.all (fun c => !isLineTerm c)
  { house := if matched then ds.asString else ""
    street := if matched then rem.asString else a.asString
    tokens := splitTokens (norm (jsTrimList address.data).asString) }

/-- The named cells extracted from one table row (`null`/absent modelled as `""`). -/
structure Cells where
  name : String := ""
  email : String := ""
  phone : String := ""
  serviceLocation : String := ""
  city : String := ""
  zip : String := ""
  deriving Repr, DecidableEq

/-- One candidate table row: full concatenated text plus extracted cells. -/
structure CandidateRow where
  text : String
  cells : Cells
  deriving Repr, DecidableEq

/-- The `breakdown` object built by `scoreRow`; a field is `none` exactly when
the corresponding key was never assigned. -/
structure Breakdown where
  house : Option Nat := none
  zip : Option Nat := none
  city : Option Nat := none
  streetTokens : Option Nat := none
  email : Option Nat := none
  phone : Option Nat := none
  deriving Repr, DecidableEq

/-- Sum of the values recorded in a breakdown (absent keys contribute 0). -/
def bdSum (b : Breakdown) : Nat :=
  b.house.getD 0 + b.zip.getD 0 + b.city.getD 0 + b.streetTokens.getD 0 +
    b.email.getD 0 + b.phone.getD 0

/-- Source:
```
function scoreRow(cells, rowText, parsed, cityHint, zipHint) {
  const text = norm(rowText);
  const loc = cells.serviceLocation || '';
  const textLoc = norm(loc);
  let score = 0; const breakdown = {};
  if (parsed.house && (textLoc.includes(parsed.house) || text.includes(parsed.house))) {
    score += 50; breakdown.house = 50; }
  if (zipHint) { const z = norm(zipHint);
    if (text.includes(z)) { score += 40; breakdown.zip = 40; } }
  if (cityHint) { const c = norm(cityHint);
    if (text.includes(c) || textLoc.includes(c)) { score += 20; breakdown.city = 20; } }
  let streetHits = 0;
  for (const tok of parsed.tokens)
    if (tok && (textLoc.includes(tok) || text.includes(tok))) streetHits += 1;
  const streetPts = streetHits * 5;
  score += streetPts; breakdown.streetTokens = streetPts;
  if (cells.email && cells.email.trim()) { score += 3; breakdown.email = 3; }
  if (cells.phone && cells.phone.trim()) { score += 3; breakdown.phone = 3; }
  return { score, breakdown };
}
```
-/
def scoreRow (cells : Cells) (rowText : String) (parsed : ParsedAddress)
    (cityHint zipHint : String) : Nat × Breakdown :=
  let text := norm rowText
  let textLoc := norm cells.serviceLocation
  let sb1 : Nat × Breakdown :=
    if parsed.house ≠ "" ∧ (strIncludes textLoc parsed.house ∨ strIncludes text parsed.house)
    then (0 + 50, { house := some 50 }) else (0, {})
  let sb2 :=
    if zipHint ≠ "" ∧ strIncludes text (norm zipHint)
    then (sb1.1 + 40, { sb1.2 with zip := some 40 }) else sb1
  let sb3 :=
    if cityHint ≠ "" ∧ (strIncludes text (norm cityHint) ∨ strIncludes textLoc (norm cityHint))
    then (sb2.1 + 20, { sb2.2 with city := some 20 }) else sb2
  let streetHits :=
    (parsed.tokens.filter (fun tok => tok != "" && (strIncludes textLoc tok || strIncludes text tok))).length
  let streetPts := streetHits * 5
  let sb4 := (sb3.1 + streetPts, { sb3.2 with streetTokens := some streetPts })
  let sb5 :=
    if cells.email ≠ "" ∧ jsTrim cells.email ≠ ""
    then (sb4.1 + 3, { sb4.2 with email := some 3 }) else sb4
  let sb6 :=
    if cells.phone ≠ "" ∧ jsTrim cells.phone ≠ ""
    then (sb5.1 + 3, { sb5.2 with phone := some 3 }) else sb5
  sb6

/-- Points of the house-number signal alone. -/
def housePoints (cells : Cells) (rowText : String) (parsed : ParsedAddress) : Nat :=
  if parsed.house ≠ "" ∧ (strIncludes (norm cells.serviceLocation) parsed.house ∨
      strIncludes (norm rowText) parsed.house) then 50 else 0

/-- Points of the zip signal alone. -/
def zipPoints (rowText zipHint : String) : Nat :=
  if zipHint ≠ "" ∧ strIncludes (norm rowText) (norm zipHint) then 40 else 0

/-- Points of the city signal alone. -/
def cityPoints (cells : Cells) (rowText cityHint : String) : Nat :=
  if cityHint ≠ "" ∧ (strIncludes (norm rowText) (norm cityHint) ∨
      strIncludes (norm cells.serviceLocation) (norm cityHint)) then 20 else 0

/-- Points of the street-token-coverage signal alone: 5 per matching token. -/
def streetPoints (cells : Cells) (rowText : String) (parsed : ParsedAddress) : Nat :=
  (parsed.tokens.filter (fun tok => tok != "" &&
    (strIncludes (norm cells.serviceLocation) tok || strIncludes (norm rowText) tok))).length * 5

/-- Points of the email-present signal alone. -/
def emailPoints (cells : Cells) : Nat :=
  if cells.email ≠ "" ∧ jsTrim cells.email ≠ "" then 3 else 0

/-- Points of the phone-present signal alone. -/
def phonePoints (cells : Cells) : Nat :=
  if cells.phone ≠ "" ∧ jsTrim cells.phone ≠ "" then 3 else 0

/-- A candidate row after scoring, tagged with its 0-based position in the
table (`.map((r, i) => …)` order). -/
structure ScoredRow where
  row : CandidateRow
  originalIndex : Nat
  score : Nat
  breakdown : Breakdown
  deriving Repr, DecidableEq

/-- Score one row at table position `i`. -/
def mkScored (parsed : ParsedAddress) (cityHint zipHint : String) (i : Nat)
    (r : CandidateRow) : ScoredRow :=
  let sb := scoreRow r.cells r.text parsed cityHint zipHint
  { row := r, originalIndex := i, score := sb.1, breakdown := sb.2 }

/-- Source: `rowsData.map(r => ({ …r, …scoreRow(…) }))`, positions starting at `i`. -/
def scoreAllFrom (parsed : ParsedAddress) (cityHint zipHint : String) :
    Nat → List CandidateRow → List ScoredRow
  | _, [] => []
  | i, r :: rs => mkScored parsed cityHint zipHint i r ::
      scoreAllFrom parsed cityHint zipHint (i + 1) rs

/-- All rows scored, in original table order. -/
def scoreAll (rows : List CandidateRow) (parsed : ParsedAddress)
    (cityHint zipHint : String) : List ScoredRow :=
  scoreAllFrom parsed cityHint zipHint 0 rows

/-- Insert into a descending-sorted list, before the first strictly smaller
score (so among equal scores, the inserted — originally earlier — element
comes first). -/
def insertDesc (x : ScoredRow) : List ScoredRow → List ScoredRow
  | [] => [x]
  | y :: ys => if y.score ≤ x.score then x :: y :: ys else y :: insertDesc x ys

/-- Stable descending sort by score, the semantics of
`.sort((a, b) => b.score - a.score)` (ECMAScript `Array.prototype.sort` is
required to be stable). -/
def sortDesc (l : List ScoredRow) : List ScoredRow :=
  l.foldr insertDesc []

/-- Selection `scored[0]` guarded by emptiness: the selection step of `Actor.main`
(`rowsData.length` is checked before `scored[0]` is taken). -/
def selectBest (rows : List CandidateRow) (parsed : ParsedAddress)
    (cityHint zipHint : String) : Option ScoredRow :=
  (sortDesc (scoreAll rows parsed cityHint zipHint)).head?

/-- Predicate: `b` is the selection contract, a scored row of maximal score and of
minimal original index among the rows attaining that score. -/
def IsBestPick (l : List ScoredRow) (b : ScoredRow) : Prop :=
  b ∈ l ∧ (∀ r ∈ l, r.score ≤ b.score) ∧
    (∀ r ∈ l, r.score = b.score → b.originalIndex ≤ r.originalIndex)

/-- Row 0 of the spec's end-to-end example. -/
def exRow0 : CandidateRow where
  text := "... 1462 22nd St, Denver ... john@x.com 555-1234"
  cells := { email := "john@x.com", phone := "555-1234",
             serviceLocation := "1462 22nd St, Denver" }

/-- Row 1 of the spec's end-to-end example. -/
def exRow1 : CandidateRow where
  text := "99 Oak Ave"
  cells := { serviceLocation := "99 Oak Ave" }

/-- A row with empty text and empty cells. -/
def emptyRow : CandidateRow where
  text := ""
  cells := {}

/-- A row whose concatenated text is `b`, with empty cells. -/
def bRow : CandidateRow where
  text := "b"
  cells := {}

/-- Descending-score order refined by original index on ties: the invariant of
the stable sort's output. -/
def RDesc (a b : ScoredRow) : Prop :=
  b.score < a.score ∨ (a.score = b.score ∧ a.originalIndex < b.originalIndex)

/-- Original-index order, the shape of the scored list before sorting. -/
def IdxLt (a b : ScoredRow) : Prop :=
  a.originalIndex < b.originalIndex

theorem insertDesc_perm (x : ScoredRow) (l : List ScoredRow) :
    (insertDesc x l).Perm (x :: l) := by
  induction l with
  | nil => simp [insertDesc]
  | cons y ys ih =>
    by_cases h : y.score ≤ x.score
    · simp [insertDesc, h]
    · simp only [insertDesc, if_neg h]
      exact (ih.cons y).trans (List.Perm.swap x y ys)

theorem sortDesc_perm (l : List ScoredRow) : (sortDesc l).Perm l := by
  induction l with
  | nil => simp [sortDesc]
  | cons x xs ih =>
    have hx : sortDesc (x :: xs) = insertDesc x (sortDesc xs) := rfl
    rw [hx]
    exact (insertDesc_perm x (sortDesc xs)).trans (ih.cons x)

theorem score_le_of_rdesc {a b : ScoredRow} (h : RDesc a b) : b.score ≤ a.score := by
  rcases h with h | ⟨h, _⟩
  · exact Nat.le_of_lt h
  · omega

theorem pairwise_insertDesc {x : ScoredRow} {l : List ScoredRow}
    (hl : l.Pairwise RDesc) (hx : ∀ y ∈ l, x.originalIndex < y.originalIndex) :
    (insertDesc x l).Pairwise RDesc := by
  induction l with
  | nil => simp [insertDesc]
  | cons y ys ih =>
    rcases List.pairwise_cons.mp hl with ⟨hy, hys⟩
    by_cases h : y.score ≤ x.score
    · simp only [insertDesc, if_pos h]
      refine List.pairwise_cons.mpr ⟨?_, hl⟩
      intro z hz
      rcases List.mem_cons.mp hz with rfl | hz
      · have hxz := hx z (List.mem_cons_self _ _)
        simp only [RDesc]
        omega
      · have hz' : z.score ≤ y.score := score_le_of_rdesc (hy z hz)
        have hxz := hx z (List.mem_cons_of_mem _ hz)
        simp only [RDesc]
        omega
    · simp only [insertDesc, if_neg h]
      have hxy : x.score < y.score := Nat.lt_of_not_le h
      refine List.pairwise_cons.mpr
        ⟨?_, ih hys (fun z hz => hx z (List.mem_cons_of_mem _ hz))⟩
      intro z hz
      have hz' : z ∈ x :: ys := (insertDesc_perm x ys).subset hz
      rcases List.mem_cons.mp hz' with rfl | hz'
      · exact Or.inl hxy
      · exact hy z hz'

theorem pairwise_sortDesc {l : List ScoredRow} (h : l.Pairwise IdxLt) :
    (sortDesc l).Pairwise RDesc := by
  induction l with
  | nil => simp [sortDesc]
  | cons x xs ih =>
    rcases List.pairwise_cons.mp h with ⟨hx, hxs⟩
    have heq : sortDesc (x :: xs) = insertDesc x (sortDesc xs) := rfl
    rw [heq]
    exact pairwise_insertDesc (ih hxs) (fun y hy => hx y ((sortDesc_perm xs).subset hy))

theorem scoreAllFrom_idx_ge (parsed : ParsedAddress) (cityHint zipHint : String)
    (rows : List CandidateRow) :
    ∀ i, ∀ y ∈ scoreAllFrom parsed cityHint zipHint i rows, i ≤ y.originalIndex := by
  induction rows with
  | nil => intro i y hy; simp [scoreAllFrom] at hy
  | cons r rs ih =>
    intro i y hy
    rcases List.mem_cons.mp hy with rfl | hy
    · simp [mkScored]
    · exact Nat.le_of_succ_le (ih (i + 1) y hy)

theorem scoreAllFrom_pairwise (parsed : ParsedAddress) (cityHint zipHint : String)
    (rows : List CandidateRow) :
    ∀ i, (scoreAllFrom parsed cityHint zipHint i rows).Pairwise IdxLt := by
  induction rows with
  | nil => intro i; simp [scoreAllFrom]
  | cons r rs ih =>
    intro i
    refine List.pairwise_cons.mpr ⟨?_, ih (i + 1)⟩
    intro y hy
    have := scoreAllFrom_idx_ge parsed cityHint zipHint rs (i + 1) y hy
    simp only [IdxLt, mkScored]
    omega

theorem selectBest_some_isBestPick {rows : List CandidateRow} {parsed : ParsedAddress}
    {cityHint zipHint : String} {b : ScoredRow}
    (h : selectBest rows parsed cityHint zipHint = some b) :
    IsBestPick (scoreAll rows parsed cityHint zipHint) b := by
  have hperm := sortDesc_perm (scoreAll rows parsed cityHint zipHint)
  have hp : (sortDesc (scoreAll rows parsed cityHint zipHint)).Pairwise RDesc :=
    pairwise_sortDesc (scoreAllFrom_pairwise parsed cityHint zipHint rows 0)
  rcases hs : sortDesc (scoreAll rows parsed cityHint zipHint) with _ | ⟨a, tail⟩
  · rw [selectBest, hs] at h; simp at h
  · rw [selectBest, hs] at h
    simp only [List.head?_cons, Option.some.injEq] at h
    obtain rfl := h
    rw [hs] at hperm hp
    rcases List.pairwise_cons.mp hp with ⟨hb, _⟩
    refine ⟨hperm.subset (List.mem_cons_self _ _), ?_, ?_⟩
    · intro r hr
      rcases List.mem_cons.mp (hperm.mem_iff.mpr hr) with rfl | hr'
      · exact Nat.le_refl _
      · exact score_le_of_rdesc (hb r hr')
    · intro r hr hscore
      rcases List.mem_cons.mp (hperm.mem_iff.mpr hr) with rfl | hr'
      · exact Nat.le_refl _
      · rcases hb r hr' with hlt | ⟨_, hi⟩
        · omega
        · exact Nat.le_of_lt hi

theorem bestPick_unique {l : List ScoredRow} (hp : l.Pairwise IdxLt) {b₁ b₂ : ScoredRow}
    (h₁ : IsBestPick l b₁) (h₂ : IsBestPick l b₂) : b₁ = b₂ := by
  have hs : b₁.score = b₂.score :=
    Nat.le_antisymm (h₂.2.1 b₁ h₁.1) (h₁.2.1 b₂ h₂.1)
  have hi : b₁.originalIndex = b₂.originalIndex :=
    Nat.le_antisymm (h₁.2.2 b₂ h₂.1 hs.symm) (h₂.2.2 b₁ h₁.1 hs)
  by_contra hne
  have hsym : Symmetric (fun a b : ScoredRow => a ≠ b → IdxLt a b ∨ IdxLt b a) := by
    intro a b hab hba
    rcases hab (Ne.symm hba) with h | h
    · exact Or.inr h
    · exact Or.inl h
  have hp' : l.Pairwise (fun a b : ScoredRow => a ≠ b → IdxLt a b ∨ IdxLt b a) :=
    hp.imp (fun h _ => Or.inl h)
  rcases hp'.forall hsym h₁.1 h₂.1 hne hne with h | h <;>
    exact absurd hi (by simp only [IdxLt] at h; omega)

theorem selectBest_cons_some (r₀ : CandidateRow) (rest : List CandidateRow)
    (parsed : ParsedAddress) (cityHint zipHint : String) :
    ∃ b, selectBest (r₀ :: rest) parsed cityHint zipHint = some b := by
  rcases hs : sortDesc (scoreAll (r₀ :: rest) parsed cityHint zipHint) with _ | ⟨a, tail⟩
  · have := (sortDesc_perm (scoreAll (r₀ :: rest) parsed cityHint zipHint)).length_eq
    rw [hs] at this
    simp [scoreAll, scoreAllFrom] at this
  · exact ⟨a, by rw [selectBest, hs]; rfl⟩

theorem scoreRow_fst_eq_sum (cells : Cells) (rowText : String) (parsed : ParsedAddress)
    (cityHint zipHint : String) :
    (scoreRow cells rowText parsed cityHint zipHint).1 =
      housePoints cells rowText parsed + zipPoints rowText zipHint +
        cityPoints cells rowText cityHint + streetPoints cells rowText parsed +
        emailPoints cells + phonePoints cells := by
  simp only [scoreRow, housePoints, zipPoints, cityPoints, streetPoints, emailPoints,
    phonePoints]
  split_ifs <;> simp

theorem scoreRow_snd_eq (cells : Cells) (rowText : String) (parsed : ParsedAddress)
    (cityHint zipHint : String) :
    (scoreRow cells rowText parsed cityHint zipHint).2 =
      { house := if parsed.house ≠ "" ∧ (strIncludes (norm cells.serviceLocation) parsed.house ∨
            strIncludes (norm rowText) parsed.house) then some 50 else none
        zip := if zipHint ≠ "" ∧ strIncludes (norm rowText) (norm zipHint) then some 40 else none
        city := if cityHint ≠ "" ∧ (strIncludes (norm rowText) (norm cityHint) ∨
            strIncludes (norm cells.serviceLocation) (norm cityHint)) then some 20 else none
        streetTokens := some (streetPoints cells rowText parsed)
        email := if cells.email ≠ "" ∧ jsTrim cells.email ≠ "" then some 3 else none
        phone := if cells.phone ≠ "" ∧ jsTrim cells.phone ≠ "" then some 3 else none } := by
  simp only [scoreRow, streetPoints]
  split_ifs <;> rfl

theorem bdSum_scoreRow (cells : Cells) (rowText : String) (parsed : ParsedAddress)
    (cityHint zipHint : String) :
    bdSum (scoreRow cells rowText parsed cityHint zipHint).2 =
      (scoreRow cells rowText parsed cityHint zipHint).1 := by
  rw [scoreRow_snd_eq, scoreRow_fst_eq_sum, bdSum]
  simp only [housePoints, zipPoints, cityPoints, emailPoints, phonePoints]
  split_ifs <;> simp

theorem startsHere_iff (n : List Char) : ∀ h, startsHere n h = true ↔ ∃ t, h = n ++ t := by
  induction n with
  | nil => intro h; simp [startsHere]
  | cons a as ih =>
    intro h
    cases h with
    | nil => simp [startsHere]
    | cons b bs =>
      simp only [startsHere, Bool.and_eq_true, decide_eq_true_eq, ih, List.cons_append,
        List.cons.injEq]
      constructor
      · rintro ⟨rfl, t, rfl⟩; exact ⟨t, rfl, rfl⟩
      · rintro ⟨t, rfl, rfl⟩; exact ⟨rfl, t, rfl⟩

theorem subAt_iff (n : List Char) : ∀ h, subAt n h = true ↔ ∃ p t, h = p ++ n ++ t := by
  intro h
  induction h with
  | nil =>
    simp only [subAt, startsHere_iff]
    constructor
    · rintro ⟨t, ht⟩
      rcases List.append_eq_nil.mp ht.symm with ⟨rfl, rfl⟩
      exact ⟨[], [], rfl⟩
    · rintro ⟨p, t, ht⟩
      rcases List.append_eq_nil.mp ht.symm with ⟨hpn, rfl⟩
      rcases List.append_eq_nil.mp hpn with ⟨rfl, rfl⟩
      exact ⟨[], rfl⟩
  | cons c rest ih =>
    simp only [subAt, Bool.or_eq_true, startsHere_iff, ih]
    constructor
    · rintro (⟨t, ht⟩ | ⟨p, t, ht⟩)
      · exact ⟨[], t, by simp [ht]⟩
      · exact ⟨c :: p, t, by simp [ht]⟩
    · rintro ⟨p, t, ht⟩
      cases p with
      | nil => exact Or.inl ⟨t, by simpa using ht⟩
      | cons d p' =>
        rcases List.cons.injEq .. ▸ ht with ⟨rfl, hrest⟩
        exact Or.inr ⟨p', t, by simpa using hrest⟩

/-- Correctness of the substring check: `hay.includes(needle)` holds exactly when `needle` occurs contiguously in `hay`. -/
theorem strIncludes_iff (hay needle : String) :
    strIncludes hay needle = true ↔ ∃ p t, hay.data = p ++ needle.data ++ t :=
  subAt_iff needle.data hay.data

theorem subAt_nil_needle (l : List Char) : subAt [] l = true := by
  cases l <;> simp [subAt, startsHere]

/-- The empty string is a substring of every string (`text.includes('')` is
always `true` in JavaScript). -/
theorem strIncludes_empty (hay : String) : strIncludes hay "" = true :=
  subAt_nil_needle hay.data

theorem scoreAllFrom_row_mem (parsed : ParsedAddress) (cityHint zipHint : String)
    (rows : List CandidateRow) :
    ∀ i, ∀ y ∈ scoreAllFrom parsed cityHint zipHint i rows, y.row ∈ rows := by
  induction rows with
  | nil => intro i y hy; simp [scoreAllFrom] at hy
  | cons r rs ih =>
    intro i y hy
    rcases List.mem_cons.mp hy with rfl | hy
    · exact List.mem_cons_self _ _
    · exact List.mem_cons_of_mem _ (ih (i + 1) y hy)

/-- C1: the total score returned by `scoreRow` is a non-negative integer
equal to the sum of the individually-defined per-signal points (house +50,
zip +40, city +20, street tokens +5 per matching token, email +3, phone +3);
each summand is a function of its own signal's inputs only, so no signal's
contribution depends on another signal's presence; and the values recorded in
the returned breakdown sum to the total score. -/
theorem scoreRow_total_eq_sum (cells : Cells) (rowText : String) (parsed : ParsedAddress)
    (cityHint zipHint : String) :
    0 ≤ ((scoreRow cells rowText parsed cityHint zipHint).1 : Int) ∧
    (scoreRow cells rowText parsed cityHint zipHint).1 =
      housePoints cells rowText parsed + zipPoints rowText zipHint +
        cityPoints cells rowText cityHint + streetPoints cells rowText parsed +
        emailPoints cells + phonePoints cells ∧
    bdSum (scoreRow cells rowText parsed cityHint zipHint).2 =
      (scoreRow cells rowText parsed cityHint zipHint).1 :=
  ⟨Int.natCast_nonneg _, scoreRow_fst_eq_sum cells rowText parsed cityHint zipHint,
    bdSum_scoreRow cells rowText parsed cityHint zipHint⟩

/-- C2: on a non-empty row list the selection returns a scored row of
maximal score whose original index is least among the rows attaining that
score (so of two tied rows the smaller `originalIndex` wins), and in the
descending sort equal scores appear in strictly increasing original order. -/
theorem selectBest_stable_ties (r₀ : CandidateRow) (rest : List CandidateRow)
    (parsed : ParsedAddress) (cityHint zipHint : String) :
    ∃ b, selectBest (r₀ :: rest) parsed cityHint zipHint = some b ∧
      b ∈ scoreAll (r₀ :: rest) parsed cityHint zipHint ∧
      (∀ r ∈ scoreAll (r₀ :: rest) parsed cityHint zipHint, r.score ≤ b.score) ∧
      (∀ r ∈ scoreAll (r₀ :: rest) parsed cityHint zipHint,
        r.score = b.score → b.originalIndex ≤ r.originalIndex) ∧
      (sortDesc (scoreAll (r₀ :: rest) parsed cityHint zipHint)).Pairwise
        (fun a c => a.score = c.score → a.originalIndex < c.originalIndex) := by
  obtain ⟨b, hb⟩ := selectBest_cons_some r₀ rest parsed cityHint zipHint
  have hpick := selectBest_some_isBestPick hb
  have hp : (sortDesc (scoreAll (r₀ :: rest) parsed cityHint zipHint)).Pairwise RDesc :=
    pairwise_sortDesc (scoreAllFrom_pairwise parsed cityHint zipHint (r₀ :: rest) 0)
  refine ⟨b, hb, hpick.1, hpick.2.1, hpick.2.2, ?_⟩
  refine hp.imp ?_
  intro a c h
  simp only [RDesc] at h
  intro he
  omega

/-- C3, counterexample: the claim "zero-value entries are never present in
the breakdown" is false: for a row matching nothing, `scoreRow` returns total
score 0 yet its breakdown carries the key `streetTokens` with value 0. -/
theorem scoreRow_zero_streetTokens_present :
    ((scoreRow {} "" (parseAddress "zzz") "" "").2.streetTokens = some 0) ∧
    (scoreRow {} "" (parseAddress "zzz") "" "").1 = 0 := by decide

/-- C3, amended: the breakdown contains a key for `house`, `zip`, `city`,
`email` and `phone` iff that signal contributed a non-zero number of points,
while the `streetTokens` key is always present and records the (possibly zero)
street-token points. -/
theorem scoreRow_breakdown_keys (cells : Cells) (rowText : String)
    (parsed : ParsedAddress) (cityHint zipHint : String) :
    ((scoreRow cells rowText parsed cityHint zipHint).2.house ≠ none ↔
      housePoints cells rowText parsed ≠ 0) ∧
    ((scoreRow cells rowText parsed cityHint zipHint).2.zip ≠ none ↔
      zipPoints rowText zipHint ≠ 0) ∧
    ((scoreRow cells rowText parsed cityHint zipHint).2.city ≠ none ↔
      cityPoints cells rowText cityHint ≠ 0) ∧
    ((scoreRow cells rowText parsed cityHint zipHint).2.email ≠ none ↔
      emailPoints cells ≠ 0) ∧
    ((scoreRow cells rowText parsed cityHint zipHint).2.phone ≠ none ↔
      phonePoints cells ≠ 0) ∧
    (scoreRow cells rowText parsed cityHint zipHint).2.streetTokens =
      some (streetPoints cells rowText parsed) := by
  rw [scoreRow_snd_eq]
  simp only [housePoints, zipPoints, cityPoints, emailPoints, phonePoints]
  split_ifs <;> simp

/-- C4: on the spec's end-to-end example (query `1462 22nd`, no hints) the
first row scores exactly 66 = 50 (house) + 10 (two street tokens) + 3 (email)
+ 3 (phone), the second row scores 0, and the selection picks row 0. -/
theorem endToEnd_example :
    (scoreRow exRow0.cells exRow0.text (parseAddress "1462 22nd") "" "").1 = 66 ∧
    housePoints exRow0.cells exRow0.text (parseAddress "1462 22nd") = 50 ∧
    streetPoints exRow0.cells exRow0.text (parseAddress "1462 22nd") = 10 ∧
    emailPoints exRow0.cells = 3 ∧
    phonePoints exRow0.cells = 3 ∧
    (scoreRow exRow1.cells exRow1.text (parseAddress "1462 22nd") "" "").1 = 0 ∧
    Option.map (fun b => b.originalIndex)
      (selectBest [exRow0, exRow1] (parseAddress "1462 22nd") "" "") = some 0 := by
  decide

/-- C7: selecting over the empty row sequence returns an explicit `none`
(never a synthetic row: any selected row is one of the input rows), parsing
the empty address yields empty derived fields, and in general the selection is
`none` exactly for the empty row sequence. -/
theorem selectBest_empty_none (parsed : ParsedAddress) (cityHint zipHint : String) :
    selectBest [] parsed cityHint zipHint = none ∧
    parseAddress "" = { house := "", street := "", tokens := [] } ∧
    (∀ rows : List CandidateRow,
      selectBest rows parsed cityHint zipHint = none ↔ rows = []) ∧
    (∀ rows : List CandidateRow, ∀ b : ScoredRow,
      selectBest rows parsed cityHint zipHint = some b → b.row ∈ rows) := by
  refine ⟨rfl, by decide, ?_, ?_⟩
  · intro rows
    cases rows with
    | nil => simp [selectBest, scoreAll, scoreAllFrom, sortDesc]
    | cons r rest =>
      obtain ⟨b, hb⟩ := selectBest_cons_some r rest parsed cityHint zipHint
      simp [hb]
  · intro rows b hb
    exact scoreAllFrom_row_mem parsed cityHint zipHint rows 0 b
      (selectBest_some_isBestPick hb).1

/-- Witness for `selectBest_empty_none` at a concrete input. -/
theorem selectBest_empty_none_witness :
    (mkScored (parseAddress "zzz") "" "" 0 exRow1).row ∈ [exRow1] :=
  (selectBest_empty_none (parseAddress "zzz") "" "").2.2.2
    [exRow1] (mkScored (parseAddress "zzz") "" "" 0 exRow1) (by decide)

/-- C8: if every scored row scores 0, the selector still returns the first
row in original order (index 0), not a refusal. -/
theorem allZero_picks_first (r₀ : CandidateRow) (rest : List CandidateRow)
    (parsed : ParsedAddress) (cityHint zipHint : String)
    (h0 : ∀ r ∈ scoreAll (r₀ :: rest) parsed cityHint zipHint, r.score = 0) :
    Option.map (fun b => (b.originalIndex, b.row))
      (selectBest (r₀ :: rest) parsed cityHint zipHint) = some (0, r₀) := by
  obtain ⟨b, hb⟩ := selectBest_cons_some r₀ rest parsed cityHint zipHint
  have hpick := selectBest_some_isBestPick hb
  have hscoreAll : scoreAll (r₀ :: rest) parsed cityHint zipHint =
      mkScored parsed cityHint zipHint 0 r₀ ::
        scoreAllFrom parsed cityHint zipHint 1 rest := rfl
  have he0 : mkScored parsed cityHint zipHint 0 r₀ ∈
      scoreAll (r₀ :: rest) parsed cityHint zipHint := by
    rw [hscoreAll]; exact List.mem_cons_self _ _
  have hsc : (mkScored parsed cityHint zipHint 0 r₀).score = b.score := by
    rw [h0 _ he0, h0 b hpick.1]
  have hb0 : b.originalIndex = 0 := by
    have := hpick.2.2 _ he0 hsc
    simp only [mkScored] at this
    omega
  have hbeq : b = mkScored parsed cityHint zipHint 0 r₀ := by
    rcases List.mem_cons.mp (hscoreAll ▸ hpick.1) with h | h
    · exact h
    · have := scoreAllFrom_idx_ge parsed cityHint zipHint rest 1 b h
      omega
  rw [hb, hbeq]
  rfl

/-- Witness for `allZero_picks_first` at a concrete input: two rows, both
scoring 0 against the query `zzz`. -/
theorem allZero_picks_first_witness :
    Option.map (fun b => (b.originalIndex, b.row))
      (selectBest [emptyRow, bRow] (parseAddress "zzz") "" "") = some (0, emptyRow) :=
  allZero_picks_first emptyRow [bRow] (parseAddress "zzz") "" "" (by decide)

theorem toNat_ofNat_valid {n : Nat} (h : n.isValidChar) : (Char.ofNat n).toNat = n := by
  simp [Char.ofNat, h, Char.ofNatAux, Char.toNat, UInt32.toNat, BitVec.toNat_ofNatLt]

theorem jsIsWs_toLower (c : Char) (hc : jsIsWs c = false) : jsIsWs c.toLower = false := by
  rw [Char.toLower]
  split_ifs with h
  · have hv : (Char.ofNat (c.toNat + 32)).toNat = c.toNat + 32 :=
      toNat_ofNat_valid (Or.inl (by omega))
    simp only [jsIsWs, hv, decide_eq_false_iff_not]
    omega
  · exact hc

theorem jsIsWs_lowWs (c : Char) : jsIsWs (lowWs c) = jsIsWs c := by
  rw [lowWs]
  split_ifs with h
  · rw [h]; decide
  · have hc : jsIsWs c = false := by simpa using h
    rw [jsIsWs_toLower c hc, hc]

theorem lowWs_space_of_ws {c : Char} (h : jsIsWs (lowWs c) = true) : lowWs c = ' ' := by
  rw [jsIsWs_lowWs] at h
  simp [lowWs, h]

theorem map_lowWs_ws_space (l : List Char) :
    ∀ c ∈ l.map lowWs, jsIsWs c = true → c = ' ' := by
  intro c hc hws
  rcases List.mem_map.mp hc with ⟨d, _, rfl⟩
  exact lowWs_space_of_ws hws

theorem map_lowWs_dropWhile (l : List Char) :
    (l.dropWhile jsIsWs).map lowWs = (l.map lowWs).dropWhile jsIsWs := by
  rw [List.dropWhile_map, show (jsIsWs ∘ lowWs) = jsIsWs from funext jsIsWs_lowWs]

theorem squeeze_space_cons (rest : List Char) (h : rest.head? ≠ some ' ') :
    squeeze (' ' :: rest) = ' ' :: squeeze rest := by
  cases rest with
  | nil => rfl
  | cons b bs =>
    have hb : ¬ b = ' ' := by simpa using h
    simp [squeeze, hb]

theorem squeeze_spaces_prepend :
    ∀ (k : Nat) (rest : List Char), rest.head? ≠ some ' ' →
      squeeze (List.replicate (k + 1) ' ' ++ rest) = ' ' :: squeeze rest := by
  intro k
  induction k with
  | zero => intro rest h; simpa using squeeze_space_cons rest h
  | succ k ih =>
    intro rest h
    have hrep : List.replicate (k + 2) ' ' ++ rest =
        ' ' :: ' ' :: (List.replicate k ' ' ++ rest) := by
      simp [List.replicate_succ]
    rw [hrep]
    have hstep : squeeze (' ' :: ' ' :: (List.replicate k ' ' ++ rest)) =
        squeeze (' ' :: (List.replicate k ' ' ++ rest)) := by
      simp [squeeze]
    rw [hstep]
    have := ih rest h
    simpa [List.replicate_succ] using this

theorem squeeze_replicate_space (k : Nat) : squeeze (List.replicate (k + 1) ' ') = [' '] := by
  have := squeeze_spaces_prepend k [] (by simp)
  simpa using this

theorem squeeze_append_spaces :
    ∀ (body : List Char) (k : Nat), body.getLast? ≠ some ' ' → body ≠ [] →
      squeeze (body ++ List.replicate (k + 1) ' ') = squeeze body ++ [' '] := by
  intro body
  induction body with
  | nil => intro k _ hne; exact absurd rfl hne
  | cons b bs ih =>
    intro k hlast _
    cases bs with
    | nil =>
      have hb : ¬ b = ' ' := by simpa using hlast
      have h1 : (b :: ([] : List Char)) ++ List.replicate (k + 1) ' ' =
          b :: ' ' :: List.replicate k ' ' := by simp [List.replicate_succ]
      rw [h1]
      have h2 : squeeze (b :: ' ' :: List.replicate k ' ') =
          b :: squeeze (' ' :: List.replicate k ' ') := by
        simp [squeeze, hb]
      rw [h2]
      have h3 : squeeze (' ' :: List.replicate k ' ') = [' '] := by
        simpa [List.replicate_succ] using squeeze_replicate_space k
      rw [h3]
      rfl
    | cons b2 bs2 =>
      have hlast2 : (b2 :: bs2).getLast? ≠ some ' ' := by
        simpa [List.getLast?_cons_cons] using hlast
      have hih := ih k hlast2 (by simp)
      by_cases hbb : b = ' ' ∧ b2 = ' '
      · have hl : squeeze ((b :: b2 :: bs2) ++ List.replicate (k + 1) ' ') =
            squeeze ((b2 :: bs2) ++ List.replicate (k + 1) ' ') := by
          simp only [List.cons_append]
          simp [squeeze, hbb.1, hbb.2]
        have hr : squeeze (b :: b2 :: bs2) = squeeze (b2 :: bs2) := by
          simp [squeeze, hbb.1, hbb.2]
        rw [hl, hr, hih]
      · have hl : squeeze ((b :: b2 :: bs2) ++ List.replicate (k + 1) ' ') =
            b :: squeeze ((b2 :: bs2) ++ List.replicate (k + 1) ' ') := by
          simp only [List.cons_append]
          rw [squeeze, if_neg (by simpa using hbb)]
        have hr : squeeze (b :: b2 :: bs2) = b :: squeeze (b2 :: bs2) := by
          rw [squeeze, if_neg (by simpa using hbb)]
        rw [hl, hr, hih]
        rfl

theorem head?_dropWhile_false (p : Char → Bool) :
    ∀ (l : List Char) {c : Char}, (l.dropWhile p).head? = some c → p c = false := by
  intro l
  induction l with
  | nil => intro c h; simp at h
  | cons a as ih =>
    intro c h
    by_cases ha : p a
    · rw [List.dropWhile_cons_of_pos ha] at h
      exact ih h
    · rw [List.dropWhile_cons_of_neg ha] at h
      simp only [List.head?_cons, Option.some.injEq] at h
      rw [← h]
      exact Bool.eq_false_iff.mpr ha

theorem jsTrimList_cons_space (x : List Char) : jsTrimList (' ' :: x) = jsTrimList x := by
  rw [jsTrimList, jsTrimList, List.dropWhile_cons_of_pos (by decide : jsIsWs ' ' = true)]

theorem jsTrimList_append_space (x : List Char) : jsTrimList (x ++ [' ']) = jsTrimList x := by
  rw [jsTrimList, jsTrimList, List.dropWhile_append]
  rcases hd : x.dropWhile jsIsWs with _ | ⟨d, ds⟩
  · decide
  · simp only [List.isEmpty_cons, Bool.false_eq_true, if_false, List.reverse_append]
    rw [show ([' '].reverse : List Char) = [' '] from rfl]
    rw [show (([' '] : List Char) ++ (d :: ds).reverse) = ' ' :: (d :: ds).reverse from rfl]
    rw [List.dropWhile_cons_of_pos (by decide : jsIsWs ' ' = true)]

theorem trim_squeeze_dropLeading (m : List Char)
    (hm : ∀ c ∈ m, jsIsWs c = true → c = ' ') :
    jsTrimList (squeeze (m.dropWhile jsIsWs)) = jsTrimList (squeeze m) := by
  have hsplit : m.takeWhile jsIsWs ++ m.dropWhile jsIsWs = m :=
    List.takeWhile_append_dropWhile jsIsWs m
  have htake : m.takeWhile jsIsWs = List.replicate (m.takeWhile jsIsWs).length ' ' := by
    refine List.eq_replicate_length.mpr ?_
    intro b hb
    exact hm b ((List.takeWhile_sublist jsIsWs).subset hb) (List.mem_takeWhile_imp hb)
  rcases hk : (m.takeWhile jsIsWs).length with _ | k
  · have htnil : m.takeWhile jsIsWs = [] := List.length_eq_zero.mp hk
    have hdrop : m.dropWhile jsIsWs = m := by
      have h := hsplit
      rw [htnil, List.nil_append] at h
      exact h
    rw [hdrop]
  · have hhead : (m.dropWhile jsIsWs).head? ≠ some ' ' := by
      intro hc
      have := head?_dropWhile_false jsIsWs m hc
      simp [jsIsWs] at this
    have hm' : m = List.replicate (k + 1) ' ' ++ m.dropWhile jsIsWs := by
      conv_lhs => rw [← hsplit]
      rw [htake, hk]
    conv_rhs => rw [hm', squeeze_spaces_prepend k _ hhead]
    rw [jsTrimList_cons_space]

theorem trim_squeeze_dropTrailing (m : List Char)
    (hm : ∀ c ∈ m, jsIsWs c = true → c = ' ') :
    jsTrimList (squeeze ((m.reverse.dropWhile jsIsWs).reverse)) =
      jsTrimList (squeeze m) := by
  have hsplit : m.reverse.takeWhile jsIsWs ++ m.reverse.dropWhile jsIsWs = m.reverse :=
    List.takeWhile_append_dropWhile jsIsWs m.reverse
  have htake : m.reverse.takeWhile jsIsWs =
      List.replicate (m.reverse.takeWhile jsIsWs).length ' ' := by
    refine List.eq_replicate_length.mpr ?_
    intro b hb
    have hbm : b ∈ m := List.mem_reverse.mp ((List.takeWhile_sublist jsIsWs).subset hb)
    exact hm b hbm (List.mem_takeWhile_imp hb)
  obtain ⟨n, hn⟩ : ∃ n, m.reverse.takeWhile jsIsWs = List.replicate n ' ' :=
    ⟨(m.reverse.takeWhile jsIsWs).length, htake⟩
  have hm2 : m = (m.reverse.dropWhile jsIsWs).reverse ++ List.replicate n ' ' := by
    conv_lhs => rw [← List.reverse_reverse m]
    conv_lhs => rw [← hsplit]
    rw [List.reverse_append, hn, List.reverse_replicate]
  rcases n with _ | k
  · conv_rhs => rw [hm2]
    simp
  · rcases hbody : (m.reverse.dropWhile jsIsWs).reverse with _ | ⟨b, bs⟩
    · -- the whole string is whitespace: m = replicate (k+1) ' '
      conv_rhs => rw [hm2, hbody]
      rw [List.nil_append, squeeze_replicate_space k]
      rw [show squeeze ([] : List Char) = [] from rfl]
      rw [show jsTrimList ([' '] : List Char) = jsTrimList [] from by decide]
    · have hlast : ((m.reverse.dropWhile jsIsWs).reverse).getLast? ≠ some ' ' := by
        rw [List.getLast?_reverse]
        intro hc
        have := head?_dropWhile_false jsIsWs m.reverse hc
        simp [jsIsWs] at this
      conv_rhs => rw [hm2]
      rw [squeeze_append_spaces _ k hlast (by rw [hbody]; simp)]
      rw [jsTrimList_append_space, hbody]

theorem map_lowWs_jsTrimList (l : List Char) :
    (jsTrimList l).map lowWs = jsTrimList (l.map lowWs) := by
  rw [jsTrimList, jsTrimList]
  rw [List.map_reverse, map_lowWs_dropWhile, List.map_reverse, map_lowWs_dropWhile]

theorem lowCollapse_trim (l : List Char) :
    jsTrimList (lowCollapse (jsTrimList l)) = jsTrimList (lowCollapse l) := by
  rw [lowCollapse, map_lowWs_jsTrimList, lowCollapse]
  have hmM : ∀ c ∈ l.map lowWs, jsIsWs c = true → c = ' ' := map_lowWs_ws_space l
  have hmD : ∀ c ∈ (l.map lowWs).dropWhile jsIsWs, jsIsWs c = true → c = ' ' :=
    fun c hc => hmM c ((List.dropWhile_sublist jsIsWs).subset hc)
  calc jsTrimList (squeeze (jsTrimList (l.map lowWs)))
      = jsTrimList (squeeze ((l.map lowWs).dropWhile jsIsWs)) :=
        trim_squeeze_dropTrailing _ hmD
    _ = jsTrimList (squeeze (l.map lowWs)) := trim_squeeze_dropLeading _ hmM

theorem asString_data_eq (l : List Char) : (l.asString).data = l := rfl

theorem parseAddress_tokens_eq (s : String) :
    (parseAddress s).tokens = splitTokens (jsTrimList (lowCollapse s.data)).asString := by
  have h1 : (parseAddress s).tokens = splitTokens (norm (jsTrimList s.data).asString) := rfl
  rw [h1]
  rw [show norm (jsTrimList s.data).asString =
      (jsTrimList (lowCollapse ((jsTrimList s.data).asString).data)).asString from rfl]
  rw [asString_data_eq, lowCollapse_trim]

/-- C9: the token sequence produced by `parseAddress` depends only on the
case-folded, whitespace-collapsed form of the address, so two addresses that
differ only in letter case and/or in the length of their whitespace runs parse
to identical token sequences. -/
theorem tokens_canon_invariant (s t : String)
    (h : lowCollapse s.data = lowCollapse t.data) :
    (parseAddress s).tokens = (parseAddress t).tokens := by
  rw [parseAddress_tokens_eq, parseAddress_tokens_eq, h]

/-- Witness for `tokens_canon_invariant` on the spec's own example pair. -/
theorem tokens_canon_invariant_witness :
    (parseAddress "123  Main St").tokens = (parseAddress "123 main st").tokens :=
  tokens_canon_invariant "123  Main St" "123 main st" (by decide)

/-- C5: keeping every other argument fixed, replacing an empty city hint by
a non-empty one whose normalisation occurs in the normalised row text or
normalised service location raises the total score by exactly 20; and an
arbitrary city hint never yields a smaller score than no city hint. -/
theorem city_hint_monotone (cells : Cells) (rowText : String) (parsed : ParsedAddress)
    (zipHint : String) (c : String) (hc : c ≠ "")
    (hsub : (∃ p t, (norm rowText).data = p ++ (norm c).data ++ t) ∨
      (∃ p t, (norm cells.serviceLocation).data = p ++ (norm c).data ++ t)) :
    (scoreRow cells rowText parsed c zipHint).1 =
      (scoreRow cells rowText parsed "" zipHint).1 + 20 ∧
    ∀ c₂ : String, (scoreRow cells rowText parsed "" zipHint).1 ≤
      (scoreRow cells rowText parsed c₂ zipHint).1 := by
  have hkey : ∀ c₂ : String, (scoreRow cells rowText parsed c₂ zipHint).1 =
      housePoints cells rowText parsed + zipPoints rowText zipHint +
        cityPoints cells rowText c₂ + streetPoints cells rowText parsed +
        emailPoints cells + phonePoints cells := fun c₂ =>
    scoreRow_fst_eq_sum cells rowText parsed c₂ zipHint
  have hc0 : cityPoints cells rowText "" = 0 := by simp [cityPoints]
  have hc20 : cityPoints cells rowText c = 20 := by
    rw [cityPoints, if_pos]
    refine ⟨hc, ?_⟩
    rcases hsub with h | h
    · exact Or.inl ((strIncludes_iff _ _).mpr h)
    · exact Or.inr ((strIncludes_iff _ _).mpr h)
  constructor
  · rw [hkey c, hkey "", hc0, hc20]
    omega
  · intro c₂
    rw [hkey c₂, hkey "", hc0]
    have h2 : cityPoints cells rowText c₂ = 0 ∨ cityPoints cells rowText c₂ = 20 := by
      rw [cityPoints]; split_ifs <;> simp
    omega

/-- Witness for `city_hint_monotone`: adding the matching hint `Denver` to the
example row raises its score by exactly 20. -/
theorem city_hint_monotone_witness :
    (scoreRow exRow0.cells exRow0.text (parseAddress "1462 22nd") "Denver" "").1 =
      (scoreRow exRow0.cells exRow0.text (parseAddress "1462 22nd") "" "").1 + 20 :=
  (city_hint_monotone exRow0.cells exRow0.text (parseAddress "1462 22nd") "" "Denver"
    (by decide) (Or.inl ((strIncludes_iff _ _).mp (by decide)))).1

/-- C6, counterexample: the address `"12 a\nb"` is already trimmed and starts with the
digit run `12` followed by whitespace, so the claim demands
`house = "12"` and `street = "a\nb"`; but the regex `/^(\d+)\s+(.*)$/` cannot
match across the line terminator, so the code returns an empty `house` and the
whole trimmed string as `street`. -/
theorem parseAddress_newline_counterexample :
    jsTrim "12 a\nb" = "12 a\nb" ∧
    ("12 a\nb".data.takeWhile jsIsDigit).asString = "12" ∧
    ("12 a\nb".data.dropWhile jsIsDigit).takeWhile jsIsWs ≠ [] ∧
    (parseAddress "12 a\nb").house ≠ "12" ∧
    (parseAddress "12 a\nb").house = "" ∧
    (parseAddress "12 a\nb").street = "12 a\nb" := by decide

/-- C6, amended: if the trimmed address starts with a digit run followed by
whitespace AND the text after that whitespace run contains no line terminator,
`house` is exactly the leading digit run and `street` is the text after the
whitespace; if there is no leading digit, `house` is empty and `street` is the
whole trimmed input.  (The no-line-terminator proviso is forced by the
counterexample: `.` in the source regex does not match line terminators.) -/
theorem parseAddress_house_street (address : String) :
    (((jsTrimList address.data).takeWhile jsIsDigit ≠ [] →
      ((jsTrimList address.data).dropWhile jsIsDigit).takeWhile jsIsWs ≠ [] →
      ((((jsTrimList address.data).dropWhile jsIsDigit).dropWhile jsIsWs).all
        (fun c => !isLineTerm c)) = true →
      (parseAddress address).house =
        ((jsTrimList address.data).takeWhile jsIsDigit).asString ∧
      (parseAddress address).street =
        (((jsTrimList address.data).dropWhile jsIsDigit).dropWhile jsIsWs).asString) ∧
    ((jsTrimList address.data).takeWhile jsIsDigit = [] →
      (parseAddress address).house = "" ∧
      (parseAddress address).street = jsTrim address)) := by
  constructor
  · intro h1 h2 h3
    have hm : (jsTrimList address.data).takeWhile jsIsDigit ≠ [] ∧
        ((jsTrimList address.data).dropWhile jsIsDigit).takeWhile jsIsWs ≠ [] ∧
        ((((jsTrimList address.data).dropWhile jsIsDigit).dropWhile jsIsWs).all
          (fun c => !isLineTerm c)) = true := ⟨h1, h2, h3⟩
    constructor
    · show (if _ then _ else _) = _
      rw [if_pos hm]
    · show (if _ then _ else _) = _
      rw [if_pos hm]
  · intro h0
    have hm : ¬ ((jsTrimList address.data).takeWhile jsIsDigit ≠ [] ∧
        ((jsTrimList address.data).dropWhile jsIsDigit).takeWhile jsIsWs ≠ [] ∧
        ((((jsTrimList address.data).dropWhile jsIsDigit).dropWhile jsIsWs).all
          (fun c => !isLineTerm c)) = true) := by
      intro hcon
      exact hcon.1 h0
    constructor
    · show (if _ then _ else _) = _
      rw [if_neg hm]
    · show (if _ then _ else _) = _
      rw [if_neg hm]
      rfl

/-- Witness for `parseAddress_house_street` on `123 Main St`. -/
theorem parseAddress_house_street_witness :
    (parseAddress "123 Main St").house =
      (("123 Main St".data : List Char).takeWhile jsIsDigit).asString ∧
    (parseAddress "123 Main St").street =
      ((("123 Main St".data : List Char).dropWhile jsIsDigit).dropWhile jsIsWs).asString := by
  have h := (parseAddress_house_street "123 Main St").1 (by decide) (by decide) (by decide)
  constructor
  · rw [h.1]; decide
  · rw [h.2]; decide

theorem zipPoints_ws {z : String} (rowText : String) (hz1 : z ≠ "") (hz2 : norm z = "") :
    zipPoints rowText z = 40 := by
  rw [zipPoints, if_pos ⟨hz1, by rw [hz2]; exact strIncludes_empty _⟩]

theorem scoreRow_wsZip_fst (cells : Cells) (rowText : String) (parsed : ParsedAddress)
    (cityHint : String) {z : String} (hz1 : z ≠ "") (hz2 : norm z = "") :
    (scoreRow cells rowText parsed cityHint z).1 =
      (scoreRow cells rowText parsed cityHint "").1 + 40 := by
  rw [scoreRow_fst_eq_sum, scoreRow_fst_eq_sum, zipPoints_ws rowText hz1 hz2]
  have h0 : zipPoints rowText "" = 0 := by simp [zipPoints]
  rw [h0]
  omega

theorem scoreRow_wsZip_snd (cells : Cells) (rowText : String) (parsed : ParsedAddress)
    (cityHint : String) {z : String} (hz1 : z ≠ "") (hz2 : norm z = "") :
    (scoreRow cells rowText parsed cityHint z).2 =
      { (scoreRow cells rowText parsed cityHint "").2 with zip := some 40 } := by
  rw [scoreRow_snd_eq, scoreRow_snd_eq]
  have hcond : z ≠ "" ∧ strIncludes (norm rowText) (norm z) := by
    refine ⟨hz1, ?_⟩
    rw [hz2]
    exact strIncludes_empty _
  rw [if_pos hcond]

/-- Adding the uniform +40 of a whitespace-only zip hint to an already-scored
row. -/
def bumpZip (r : ScoredRow) : ScoredRow :=
  { r with score := r.score + 40, breakdown := { r.breakdown with zip := some 40 } }

theorem scoreAllFrom_wsZip (parsed : ParsedAddress) (cityHint : String) {z : String}
    (hz1 : z ≠ "") (hz2 : norm z = "") (rows : List CandidateRow) :
    ∀ i, scoreAllFrom parsed cityHint z i rows =
      (scoreAllFrom parsed cityHint "" i rows).map bumpZip := by
  induction rows with
  | nil => intro i; rfl
  | cons r rs ih =>
    intro i
    have hmk : mkScored parsed cityHint z i r = bumpZip (mkScored parsed cityHint "" i r) := by
      simp only [mkScored, bumpZip]
      rw [scoreRow_wsZip_fst r.cells r.text parsed cityHint hz1 hz2,
        scoreRow_wsZip_snd r.cells r.text parsed cityHint hz1 hz2]
    show mkScored parsed cityHint z i r :: scoreAllFrom parsed cityHint z (i + 1) rs = _
    rw [hmk, ih (i + 1)]
    rfl

theorem selectBest_wsZip (rows : List CandidateRow) (parsed : ParsedAddress)
    (cityHint : String) {z : String} (hz1 : z ≠ "") (hz2 : norm z = "") :
    Option.map (fun b => (b.originalIndex, b.row)) (selectBest rows parsed cityHint z) =
      Option.map (fun b => (b.originalIndex, b.row)) (selectBest rows parsed cityHint "") := by
  cases rows with
  | nil => rfl
  | cons r rest =>
    obtain ⟨b₁, hb₁⟩ := selectBest_cons_some r rest parsed cityHint z
    obtain ⟨b₂, hb₂⟩ := selectBest_cons_some r rest parsed cityHint ""
    have hp₁ := selectBest_some_isBestPick hb₁
    have hp₂ := selectBest_some_isBestPick hb₂
    have hmap : scoreAll (r :: rest) parsed cityHint z =
        (scoreAll (r :: rest) parsed cityHint "").map bumpZip :=
      scoreAllFrom_wsZip parsed cityHint hz1 hz2 (r :: rest) 0
    rw [hmap] at hp₁
    obtain ⟨u, hu, hbu⟩ := List.mem_map.mp hp₁.1
    have hupick : IsBestPick (scoreAll (r :: rest) parsed cityHint "") u := by
      refine ⟨hu, ?_, ?_⟩
      · intro s hs
        have := hp₁.2.1 (bumpZip s) (List.mem_map_of_mem bumpZip hs)
        rw [← hbu] at this
        simpa [bumpZip] using this
      · intro s hs hsc
        have := hp₁.2.2 (bumpZip s) (List.mem_map_of_mem bumpZip hs)
          (by rw [← hbu]; simp [bumpZip, hsc])
        rw [← hbu] at this
        simpa [bumpZip] using this
    have hueq : u = b₂ :=
      bestPick_unique (scoreAllFrom_pairwise parsed cityHint "" (r :: rest) 0) hupick hp₂
    rw [hb₁, hb₂, ← hbu, hueq]
    simp [bumpZip]

/-- C10: a whitespace-only zip hint normalises to the empty string, which
`includes` accepts for every row text, so the zip signal fires uniformly: every
row's score rises by exactly 40 (the breakdown records `zip = 40`), and the
selected row (index and contents) is unchanged. -/
theorem wsZip_uniform (z : String) (hz1 : z ≠ "") (hz2 : norm z = "") :
    (∀ (cells : Cells) (rowText : String) (parsed : ParsedAddress) (cityHint : String),
      (scoreRow cells rowText parsed cityHint z).1 =
        (scoreRow cells rowText parsed cityHint "").1 + 40 ∧
      (scoreRow cells rowText parsed cityHint z).2.zip = some 40) ∧
    (∀ (rows : List CandidateRow) (parsed : ParsedAddress) (cityHint : String),
      Option.map (fun b => (b.originalIndex, b.row)) (selectBest rows parsed cityHint z) =
        Option.map (fun b => (b.originalIndex, b.row))
          (selectBest rows parsed cityHint "")) := by
  constructor
  · intro cells rowText parsed cityHint
    refine ⟨scoreRow_wsZip_fst cells rowText parsed cityHint hz1 hz2, ?_⟩
    rw [scoreRow_wsZip_snd cells rowText parsed cityHint hz1 hz2]
  · intro rows parsed cityHint
    exact selectBest_wsZip rows parsed cityHint hz1 hz2

/-- Witness for `wsZip_uniform` with the single-space hint `" "` on the
example rows. -/
theorem wsZip_uniform_witness :
    ((scoreRow exRow1.cells exRow1.text (parseAddress "1462 22nd") "" " ").1 =
      (scoreRow exRow1.cells exRow1.text (parseAddress "1462 22nd") "" "").1 + 40) ∧
    (Option.map (fun b => (b.originalIndex, b.row))
        (selectBest [exRow0, exRow1] (parseAddress "1462 22nd") "" " ") =
      Option.map (fun b => (b.originalIndex, b.row))
        (selectBest [exRow0, exRow1] (parseAddress "1462 22nd") "" "")) :=
  ⟨((wsZip_uniform " " (by decide) (by decide)).1 exRow1.cells exRow1.text
      (parseAddress "1462 22nd") "").1,
    (wsZip_uniform " " (by decide) (by decide)).2 [exRow0, exRow1]
      (parseAddress "1462 22nd") ""⟩
